import Mathlib

set_option linter.unusedVariables false

/-!
Verification of the Bayesian-optimization core of the
residual-manifold-deep-gp repository.

The development shallowly embeds the relevant source functions:

* `RunBo` — the optimization loop `run_bo` from notebooks/bo_experiment/run.py
  (best-observation tracking and the surrogate-family switch schedule);
* `BotorchModel` — `BotorchGP` from
  mdgp/experiments/bo_experiment/model/botorch.py (the `_resample_weights`
  flag state machine and acquisition evaluation);
* `Bo` — the name resolvers and `optimize_acqf_manifold` from
  mdgp/bo_experiment/bo/bo.py, and the tensor-shape handling of
  `BotorchGP.forward`;
* `ExperimentUtils` — `create_model` from mdgp/experiment_utils/model.py and
  the experiment-configuration layer from
  mdgp/experiment_utils/reproducibility.py.

Real values observed by the loop are modelled as rationals; a tensor is
modelled by its shape together with a flat data list, with `Option`
marking NaN entries where NaN-handling is the behaviour under study.
-/

namespace RunBo

/-- One observation of the objective: an abstract point identifier together
with the observed objective value. -/
structure Obs where
  x : Int
  y : ℚ
  deriving DecidableEq, Repr

/-- The strict-improvement update of run.py lines 82-85:
`if new_y < best_y: best_y = new_y; best_x = new_x.squeeze()`. -/
def stepBest (b o : Obs) : Obs :=
  if o.y < b.y then o else b

/-- The minimum observed value over `b :: l` (run.py line 26, `y.min()`). -/
def minVals (b : Obs) (l : List Obs) : ℚ :=
  l.foldl (fun m o => min m o.y) b.y

/-- Whether an observation attains the value `m`. -/
def isMin (m : ℚ) (o : Obs) : Bool :=
  decide (o.y = m)

/-- The observation at the earliest index attaining the minimum value over
`b :: l` (run.py line 25, `initial_data[y.argmin()]`; `torch.argmin` returns
the first index attaining the minimum). -/
def firstMin (b : Obs) (l : List Obs) : Obs :=
  match (b :: l).find? (isMin (minVals b l)) with
  | some o => o
  | none => b

/-- run_bo's best-observation tracking (run.py lines 23-26 and 82-85): start
from the argmin of the initial data `b :: rest`, then fold the
strict-improvement update over the observations appended by the loop.  The
`maximize` orientation flag of `BOArguments` is received by `run_bo` but
never consulted by it. -/
def runBoBest (maximize : Bool) (b : Obs) (rest app : List Obs) : Obs :=
  app.foldl stepBest (firstMin b rest)

theorem stepBest_y (b o : Obs) : (stepBest b o).y = min b.y o.y := by
  unfold stepBest
  rcases lt_or_ge o.y b.y with h | h
  · rw [if_pos h, min_eq_right h.le]
  · rw [if_neg (not_lt.mpr h), min_eq_left h]

theorem minVals_cons (b o : Obs) (t : List Obs) :
    minVals b (o :: t) = minVals (stepBest b o) t := by
  simp only [minVals, List.foldl_cons, stepBest_y]

theorem minVals_le (l : List Obs) :
    ∀ (b : Obs), ∀ o ∈ b :: l, minVals b l ≤ o.y := by
  induction l with
  | nil =>
    intro b o ho
    rw [List.mem_singleton] at ho
    rw [ho]
    simp [minVals]
  | cons u t ih =>
    intro b o ho
    rw [minVals_cons]
    have hhead : minVals (stepBest b u) t ≤ (stepBest b u).y :=
      ih (stepBest b u) (stepBest b u) (List.mem_cons_self _ _)
    rcases List.mem_cons.mp ho with h | h
    · rw [h]
      calc minVals (stepBest b u) t ≤ (stepBest b u).y := hhead
        _ = min b.y u.y := stepBest_y b u
        _ ≤ b.y := min_le_left _ _
    · rcases List.mem_cons.mp h with h2 | h2
      · rw [h2]
        calc minVals (stepBest b u) t ≤ (stepBest b u).y := hhead
          _ = min b.y u.y := stepBest_y b u
          _ ≤ u.y := min_le_right _ _
      · exact ih (stepBest b u) o (List.mem_cons_of_mem _ h2)

theorem minVals_attained (l : List Obs) :
    ∀ b : Obs, ∃ o ∈ b :: l, o.y = minVals b l := by
  induction l with
  | nil =>
    intro b
    exact ⟨b, List.mem_cons_self _ _, by simp [minVals]⟩
  | cons u t ih =>
    intro b
    rcases ih (stepBest b u) with ⟨o, ho, hp⟩
    rw [← minVals_cons] at hp
    rcases List.mem_cons.mp ho with h | h
    · refine ⟨o, ?_, hp⟩
      rw [h]
      unfold stepBest
      by_cases hc : u.y < b.y
      · rw [if_pos hc]
        exact List.mem_cons_of_mem _ (List.mem_cons_self _ _)
      · rw [if_neg hc]
        exact List.mem_cons_self _ _
    · exact ⟨o, List.mem_cons_of_mem _ (List.mem_cons_of_mem _ h), hp⟩

theorem find?_minVals_isSome (b : Obs) (l : List Obs) :
    ((b :: l).find? (isMin (minVals b l))).isSome := by
  rw [List.find?_isSome]
  rcases minVals_attained l b with ⟨o, ho, hp⟩
  exact ⟨o, ho, by simpa [isMin] using hp⟩

theorem firstMin_nil (b : Obs) : firstMin b [] = b := by
  unfold firstMin
  have hd : isMin (minVals b []) b = true := by simp [isMin, minVals]
  rw [List.find?_cons, hd]

theorem firstMin_cons (b o : Obs) (t : List Obs) :
    firstMin b (o :: t) = firstMin (stepBest b o) t := by
  have hm : minVals b (o :: t) = minVals (stepBest b o) t := minVals_cons b o t
  unfold firstMin
  rw [hm]
  rcases lt_or_ge o.y b.y with h | h
  · -- the new head strictly improves, so `b` cannot attain the minimum
    have hsb : stepBest b o = o := if_pos h
    have hble : minVals (stepBest b o) t ≤ (stepBest b o).y :=
      minVals_le t (stepBest b o) (stepBest b o) (List.mem_cons_self _ _)
    have hbne : ¬ (isMin (minVals (stepBest b o) t) b = true) := by
      simp only [isMin, decide_eq_true_eq]
      intro hEq
      have hle : b.y ≤ o.y := by
        rw [hEq]
        calc minVals (stepBest b o) t ≤ (stepBest b o).y := hble
          _ = o.y := by rw [hsb]
      exact absurd hle (not_le.mpr h)
    rw [List.find?_cons_of_neg _ hbne, hsb]
    have hs := find?_minVals_isSome o t
    rcases hf : (o :: t).find? (isMin (minVals o t)) with _ | x
    · rw [hf] at hs
      simp at hs
    · rfl
  · -- the head is kept, so both searches start at `b`
    have hsb : stepBest b o = b := if_neg (not_lt.mpr h)
    rw [hsb]
    by_cases hb : b.y = minVals b t
    · have hbp : isMin (minVals b t) b = true := by
        simpa [isMin] using hb
      rw [List.find?_cons_of_pos _ hbp, List.find?_cons_of_pos _ hbp]
    · have hbn : ¬ (isMin (minVals b t) b = true) := by
        simpa [isMin] using hb
      rw [List.find?_cons_of_neg _ hbn, List.find?_cons_of_neg _ hbn]
      have hble : minVals b t ≤ b.y :=
        minVals_le t b b (List.mem_cons_self _ _)
      have hone : ¬ (isMin (minVals b t) o = true) := by
        simp only [isMin, decide_eq_true_eq]
        intro hEq
        exact hb (le_antisymm (le_trans h (le_of_eq hEq)) hble)
      rw [List.find?_cons_of_neg _ hone]

theorem foldl_stepBest_eq_firstMin (l : List Obs) :
    ∀ b : Obs, l.foldl stepBest b = firstMin b l := by
  induction l with
  | nil =>
    intro b
    rw [List.foldl_nil, firstMin_nil]
  | cons o t ih =>
    intro b
    rw [List.foldl_cons, ih (stepBest b o), firstMin_cons]

theorem firstMin_append (rest : List Obs) :
    ∀ (b : Obs) (app : List Obs),
      firstMin (firstMin b rest) app = firstMin b (rest ++ app) := by
  induction rest with
  | nil =>
    intro b app
    rw [firstMin_nil, List.nil_append]
  | cons o t ih =>
    intro b app
    rw [firstMin_cons, ih (stepBest b o) app, List.cons_append, firstMin_cons]

theorem firstMin_mem (b : Obs) (l : List Obs) : firstMin b l ∈ b :: l := by
  unfold firstMin
  rcases hf : (b :: l).find? (isMin (minVals b l)) with _ | o
  · exact List.mem_cons_self _ _
  · exact List.mem_of_find?_eq_some hf

theorem firstMin_y (b : Obs) (l : List Obs) :
    (firstMin b l).y = minVals b l := by
  have hs := find?_minVals_isSome b l
  unfold firstMin
  rcases hf : (b :: l).find? (isMin (minVals b l)) with _ | o
  · rw [hf] at hs
    simp at hs
  · have hp := List.find?_some hf
    simp only [isMin, decide_eq_true_eq] at hp
    exact hp

/-- C1 counterexample: with the `maximize` orientation flag set, `run_bo`
still tracks the minimum.  With one initial observation of value `0` and one
appended observation of value `5`, the claim says the tracked best value is
the maximum `5`, but the code keeps `0`. -/
theorem run_bo_maximize_counterexample :
    runBoBest true ⟨0, 0⟩ [] [⟨1, 5⟩] = ⟨0, 0⟩ ∧ (0 : ℚ) < 5 := by
  constructor
  · rfl
  · norm_num

/-- C1 (amended): for either value of the orientation flag, `run_bo` tracks
the minimum of all observed values (initial data `b :: rest` plus appended
observations `app`): the tracked best observation is exactly the observation
at the earliest index attaining the minimum observed value, is one of the
observed points, and its value is a lower bound on every observed value. -/
theorem run_bo_best_tracks_min (maximize : Bool) (b : Obs) (rest app : List Obs) :
    runBoBest maximize b rest app = firstMin b (rest ++ app)
    ∧ runBoBest maximize b rest app ∈ b :: (rest ++ app)
    ∧ ∀ o ∈ b :: (rest ++ app), (runBoBest maximize b rest app).y ≤ o.y := by
  have h1 : runBoBest maximize b rest app = firstMin b (rest ++ app) := by
    unfold runBoBest
    rw [foldl_stepBest_eq_firstMin, firstMin_append]
  refine ⟨h1, ?_, ?_⟩
  · rw [h1]
    exact firstMin_mem b (rest ++ app)
  · intro o ho
    rw [h1, firstMin_y]
    exact minVals_le (rest ++ app) b o ho

/-- C1 witness: the amended theorem applied at a concrete run with a tie
(values `2, 1, 1`): the earliest observation with value `1` wins. -/
theorem run_bo_best_tracks_min_witness :
    runBoBest false ⟨0, 2⟩ [⟨1, 1⟩] [⟨2, 1⟩, ⟨3, 3⟩] = firstMin ⟨0, 2⟩ [⟨1, 1⟩, ⟨2, 1⟩, ⟨3, 3⟩]
    ∧ runBoBest false ⟨0, 2⟩ [⟨1, 1⟩] [⟨2, 1⟩, ⟨3, 3⟩] ∈ [⟨0, 2⟩, ⟨1, 1⟩, ⟨2, 1⟩, ⟨3, 3⟩]
    ∧ ∀ o ∈ [(⟨0, 2⟩ : Obs), ⟨1, 1⟩, ⟨2, 1⟩, ⟨3, 3⟩],
        (runBoBest false ⟨0, 2⟩ [⟨1, 1⟩] [⟨2, 1⟩, ⟨3, 3⟩]).y ≤ o.y :=
  run_bo_best_tracks_min false ⟨0, 2⟩ [⟨1, 1⟩] [⟨2, 1⟩, ⟨3, 3⟩]

/-! ### The surrogate-family switch schedule (claim C2)

run.py lines 32-39 decide which surrogate family the iteration uses:

```
if (bo_args.switch_to_deep_iter is not None) and (iteration < bo_args.switch_to_deep_iter):
    model_args.model_name = 'exact'
elif start_model_name == 'deep':
    model_args.model_name = 'deep'
```

`start_model_name` is the configured `model_args.model_name` captured before
the loop; `model_args.model_name` is mutated in place, so when neither branch
fires the name of the previous iteration is kept.
-/

/-- The family-selection step of run.py lines 32-39 at iteration `i`, given
the configured starting name, the switch schedule, and the (mutated) name
left by the previous iteration. -/
def selectModelName (startName : String) (switchToDeepIter : Option Nat)
    (prev : String) (i : Nat) : String :=
  match switchToDeepIter with
  | some k => if i < k then "exact" else if startName = "deep" then "deep" else prev
  | none => if startName = "deep" then "deep" else prev

/-- The sequence of surrogate-family names used by successive iterations of
`run_bo`, starting at iteration `i` with previous name `prev`.  The list `ys`
holds the objective values observed at those iterations: the loop observes
one value per iteration, and threading them makes value-independence
statable. -/
def modelNameSeq (startName : String) (switchToDeepIter : Option Nat) :
    String → Nat → List ℚ → List String
  | _, _, [] => []
  | prev, i, _ :: ys =>
    let n := selectModelName startName switchToDeepIter prev i
    n :: modelNameSeq startName switchToDeepIter n (i + 1) ys

theorem modelNameSeq_deep (k : Nat) (ys : List ℚ) :
    ∀ (i0 : Nat) (prev : String) (j : Nat), j < ys.length →
      (modelNameSeq "deep" (some k) prev i0 ys).getD j "" =
        if i0 + j < k then "exact" else "deep" := by
  induction ys with
  | nil =>
    intro i0 prev j hj
    simp at hj
  | cons y ys ih =>
    intro i0 prev j hj
    cases j with
    | zero =>
      simp only [modelNameSeq, selectModelName, List.getD_cons_zero, Nat.add_zero]
      by_cases hk : i0 < k
      · rw [if_pos hk, if_pos hk]
      · rw [if_neg hk, if_neg hk]
        simp
    | succ j =>
      simp only [modelNameSeq, List.getD_cons_succ]
      have hj' : j < ys.length := by
        simpa using Nat.lt_of_succ_lt_succ hj
      rw [ih (i0 + 1) _ j hj']
      have : i0 + 1 + j = i0 + (j + 1) := by omega
      rw [this]

theorem modelNameSeq_length_invariant (startName : String) (switchToDeepIter : Option Nat)
    (ys : List ℚ) :
    ∀ (ys' : List ℚ) (prev : String) (i0 : Nat), ys.length = ys'.length →
      modelNameSeq startName switchToDeepIter prev i0 ys =
        modelNameSeq startName switchToDeepIter prev i0 ys' := by
  induction ys with
  | nil =>
    intro ys' prev i0 hlen
    cases ys' with
    | nil => rfl
    | cons y' t' => simp at hlen
  | cons y t ih =>
    intro ys' prev i0 hlen
    cases ys' with
    | nil => simp at hlen
    | cons y' t' =>
      simp only [modelNameSeq]
      simp only [List.length_cons, Nat.succ.injEq] at hlen
      rw [ih t' _ (i0 + 1) hlen]

/-- C2 counterexample: a run configured with `switch_to_deep_iter = 1` whose
configured model name is `'exact'` (not `'deep'`) never switches: at
iteration `1 ≥ k` the selected family is still `'exact'`, not `'deep'`,
because the `elif start_model_name == 'deep'` branch never fires. -/
theorem switch_schedule_exact_start_counterexample :
    (modelNameSeq "exact" (some 1) "exact" 0 [0, 0]).getD 1 "" = "exact"
    ∧ "exact" ≠ "deep" := by
  constructor
  · rfl
  · decide

/-- C2 (amended): when the configured model name is `'deep'` and the switch
schedule is set to iteration `k`, `run_bo` uses family `'exact'` at every
iteration `i < k` and `'deep'` at every iteration `i ≥ k`; and for any
configured name and schedule, the family sequence depends only on the number
of iterations, not on the observed objective values. -/
theorem switch_to_deep_schedule (k i : Nat) (startName : String)
    (switchToDeepIter : Option Nat) (ys ys' : List ℚ)
    (hi : i < ys.length) (hlen : ys.length = ys'.length) :
    (modelNameSeq "deep" (some k) "deep" 0 ys).getD i "" =
      (if i < k then "exact" else "deep")
    ∧ modelNameSeq startName switchToDeepIter startName 0 ys =
        modelNameSeq startName switchToDeepIter startName 0 ys' := by
  constructor
  · have := modelNameSeq_deep k ys 0 "deep" i hi
    rwa [Nat.zero_add] at this
  · exact modelNameSeq_length_invariant startName switchToDeepIter ys ys' startName 0 hlen

/-- C2 witness: the amended theorem at `k = 3` over five iterations, with two
different observed-value sequences of the same length. -/
theorem switch_to_deep_schedule_witness :
    (4 < ([0, 0, 0, 0, 0] : List ℚ).length
      ∧ ([0, 0, 0, 0, 0] : List ℚ).length = ([1, 2, 3, 4, 5] : List ℚ).length)
    ∧ ((modelNameSeq "deep" (some 3) "deep" 0 [0, 0, 0, 0, 0]).getD 4 "" =
        (if 4 < 3 then "exact" else "deep")
      ∧ modelNameSeq "exact" (some 3) "exact" 0 [0, 0, 0, 0, 0] =
          modelNameSeq "exact" (some 3) "exact" 0 [1, 2, 3, 4, 5]) :=
  ⟨⟨by norm_num, by norm_num⟩,
    switch_to_deep_schedule 3 4 "exact" (some 3) [0, 0, 0, 0, 0] [1, 2, 3, 4, 5]
      (by norm_num) (by norm_num)⟩

end RunBo

namespace BotorchModel

/-!
`BotorchGP` (mdgp/experiments/bo_experiment/model/botorch.py) keeps a boolean
field `_resample_weights`, set to `True` by the constructor and by
`resample_weights()` (lines 20-21).  `posterior()` (lines 23-45) calls
`self.forward(X, ..., resample_weights=self._resample_weights)` and then sets
`self._resample_weights = False` (lines 31-32).
-/

/-- The two operations run_bo performs on a `BotorchGP` that matter for its
resampling state: `resample` models `resample_weights()` and `posterior`
models one `posterior()` evaluation. -/
inductive GPOp where
  | resample
  | posterior
  deriving DecidableEq, Repr

/-- The flags passed to the base model by the successive `posterior()` calls
of an operation trace, starting from `_resample_weights = s`.  `posterior`
forwards the stored flag and then clears it; `resample` sets it. -/
def runOps : Bool → List GPOp → List Bool
  | _, [] => []
  | _, GPOp.resample :: t => runOps true t
  | s, GPOp.posterior :: t => s :: runOps false t

/-- The `_resample_weights` field after executing an operation trace. -/
def stateAfter : Bool → List GPOp → Bool
  | s, [] => s
  | _, GPOp.resample :: t => stateAfter true t
  | _, GPOp.posterior :: t => stateAfter false t

theorem runOps_append (l₁ : List GPOp) :
    ∀ (s : Bool) (l₂ : List GPOp),
      runOps s (l₁ ++ l₂) = runOps s l₁ ++ runOps (stateAfter s l₁) l₂ := by
  induction l₁ with
  | nil =>
    intro s l₂
    rfl
  | cons op t ih =>
    intro s l₂
    cases op with
    | resample =>
      simp only [List.cons_append, runOps, stateAfter]
      exact ih true l₂
    | posterior =>
      simp only [List.cons_append, runOps, stateAfter]
      rw [show t.append l₂ = t ++ l₂ from rfl, ih false l₂]

theorem runOps_posteriors_false (n : Nat) :
    runOps false (List.replicate n GPOp.posterior) = List.replicate n false := by
  induction n with
  | zero => rfl
  | succ n ih => simp only [List.replicate_succ, runOps, ih]

/-- C3: for any prior operation trace `pre` and any starting flag value,
after `resample_weights()` is called the first subsequent `posterior()`
evaluation passes `resample_weights=True` to the base model, and all `n`
later `posterior()` evaluations pass `resample_weights=False`, as long as
`resample_weights()` is not called again. -/
theorem resample_once_then_hold (s : Bool) (pre : List GPOp) (n : Nat) :
    runOps s (pre ++ GPOp.resample :: GPOp.posterior :: List.replicate n GPOp.posterior)
      = runOps s pre ++ true :: List.replicate n false := by
  rw [runOps_append]
  simp only [runOps, runOps_posteriors_false]

/-!
Claim C7 additionally concerns the value the acquisition computes.  The base
model `model.base_model` is constructed by `create_model` from
`mdgp.bo_experiment.model`, which is not under src/.

Modelled from the spec: per spec sections 4.4 and 9, the acquisition score is
a pure function of the surrogate snapshot (its sampled weights), the best
observed value and the evaluation points; the base model, when called with
`resample_weights=True`, draws fresh weights from its random source, and when
called with `resample_weights=False` reuses the stored weights.
-/

/-- The resampling-relevant state of a `BotorchGP` wrapping a stochastic base
model with weights of type `W`: the `_resample_weights` flag, the currently
held weights, and the random supply of future weight draws (`supply` with a
cursor `idx`). -/
structure Surrogate (W : Type) where
  resampleFlag : Bool
  weights : W
  supply : Nat → W
  idx : Nat

/-- `resample_weights()` (botorch.py lines 20-21): only sets the flag. -/
def resampleWeights {W : Type} (s : Surrogate W) : Surrogate W :=
  { s with resampleFlag := true }

/-- The base model called with a resampling flag: with `True` it draws the
next weights from the supply and stores them, with `False` it keeps the
stored weights.  Returns the weights it used. -/
def baseModelCall {W : Type} (s : Surrogate W) (resampleFlag : Bool) : W × Surrogate W :=
  if resampleFlag then
    (s.supply s.idx, { s with weights := s.supply s.idx, idx := s.idx + 1 })
  else
    (s.weights, s)

/-- One acquisition evaluation through `BotorchGP.posterior` (botorch.py
lines 23-45): forward the stored flag to the base model, clear the flag, and
score the posterior.  `score` is the acquisition functional applied to the
weights the base model used, the best observed value `best`, and the
evaluation points `x`.  Returns the score, the flag that was passed to the
base model, and the new surrogate state. -/
def posteriorEval {W X : Type} (score : W → ℚ → X → ℚ) (best : ℚ) (x : X)
    (s : Surrogate W) : ℚ × Bool × Surrogate W :=
  let flagPassed := s.resampleFlag
  let r := baseModelCall s flagPassed
  (score r.1 best x, flagPassed, { r.2 with resampleFlag := false })

/-- C7: evaluating the acquisition twice at the same points `x` with the same
best value and no intervening `resample_weights()` call yields identical
scores; the second evaluation passes `resample_weights=False` to the base
model (the first evaluation consumed the flag), so no randomness is redrawn
between the evaluations. -/
theorem acqf_eval_idempotent {W X : Type} (score : W → ℚ → X → ℚ) (best : ℚ)
    (x : X) (s : Surrogate W) :
    (posteriorEval score best x (posteriorEval score best x s).2.2).1
        = (posteriorEval score best x s).1
    ∧ (posteriorEval score best x (posteriorEval score best x s).2.2).2.1 = false := by
  by_cases h : s.resampleFlag
  · simp [posteriorEval, baseModelCall, h]
  · simp [posteriorEval, baseModelCall, h]

end BotorchModel

namespace Bo

/-- A tensor modelled by its shape and a flat data list; a `none` entry
models a NaN coordinate. -/
structure QTensor where
  shape : List Nat
  data : List (Option ℚ)
  deriving DecidableEq, Repr

/-- `t.isnan().any()`: whether any coordinate of the tensor is NaN. -/
def hasNaN (t : QTensor) : Bool :=
  t.data.any Option.isNone

/-- `t.squeeze(-2)`: drop the second-to-last dimension when its extent is 1,
otherwise leave the tensor unchanged.  The flat data is untouched. -/
def squeezeNeg2 (t : QTensor) : QTensor :=
  if t.shape.getD (t.shape.length - 2) 0 = 1 then
    { t with shape := t.shape.eraseIdx (t.shape.length - 2) }
  else t

/-- The assertion of bo.py line 89:
`assert not batch_initial_conditions.isnan().any(), "Generated nan batch initial conditions"`. -/
def assertNoNaN (t : QTensor) : Except String QTensor :=
  if hasNaN t then Except.error "Generated nan batch initial conditions"
  else Except.ok t

/-- `optimize_acqf_manifold` (bo.py lines 79-101) after the batch of initial
conditions has been generated by `gen_batch_initial_conditions`: assert that
no seed coordinate is NaN, squeeze the q-dimension, and only then hand the
seeds to the local refinement (`optimize_acqf` with `ManifoldGenCandidates`),
modelled by the function argument `refine`. -/
def optimize_acqf_manifold {α : Type} (refine : QTensor → α)
    (batchInitialConditions : QTensor) : Except String α :=
  match assertNoNaN batchInitialConditions with
  | Except.error e => Except.error e
  | Except.ok b => Except.ok (refine (squeezeNeg2 b))

/-- C4: `optimize_acqf_manifold` fails after seed generation exactly when
some coordinate of the generated batch of initial conditions is NaN; in that
case the result is the assertion error and does not depend on the refinement
stage at all (no refinement runs), and when no seed is NaN it proceeds to
refine the squeezed seed batch. -/
theorem optimize_acqf_manifold_nan_guard {α : Type} (refine : QTensor → α)
    (t : QTensor) :
    ((∃ e, optimize_acqf_manifold refine t = Except.error e) ↔ hasNaN t = true)
    ∧ (hasNaN t = false →
        optimize_acqf_manifold refine t = Except.ok (refine (squeezeNeg2 t)))
    ∧ (hasNaN t = true → ∀ refine' : QTensor → α,
        optimize_acqf_manifold refine' t =
          Except.error "Generated nan batch initial conditions") := by
  by_cases h : hasNaN t
  · refine ⟨⟨fun _ => h, ?_⟩, ?_, ?_⟩
    · intro _
      exact ⟨"Generated nan batch initial conditions", by
        simp [optimize_acqf_manifold, assertNoNaN, h]⟩
    · intro hfalse
      rw [h] at hfalse
      exact absurd hfalse (by simp)
    · intro _ refine'
      simp [optimize_acqf_manifold, assertNoNaN, h]
  · rw [Bool.not_eq_true] at h
    refine ⟨⟨?_, ?_⟩, ?_, ?_⟩
    · rintro ⟨e, he⟩
      simp [optimize_acqf_manifold, assertNoNaN, h] at he
    · intro htrue
      rw [htrue] at h
      exact absurd h (by simp)
    · intro _
      simp [optimize_acqf_manifold, assertNoNaN, h]
    · intro htrue
      rw [htrue] at h
      exact absurd h (by simp)

/-- C4 witness: the guard theorem at a clean 2×1×2 seed batch (no NaN) and
at the same batch with one NaN coordinate. -/
theorem optimize_acqf_manifold_nan_guard_witness :
    (hasNaN ⟨[2, 1, 2], [some 1, some 0, some 0, some 1]⟩ = false
      ∧ optimize_acqf_manifold QTensor.shape ⟨[2, 1, 2], [some 1, some 0, some 0, some 1]⟩
          = Except.ok [2, 2])
    ∧ (hasNaN ⟨[2, 1, 2], [some 1, none, some 0, some 1]⟩ = true
      ∧ optimize_acqf_manifold QTensor.shape ⟨[2, 1, 2], [some 1, none, some 0, some 1]⟩
          = Except.error "Generated nan batch initial conditions") :=
  ⟨⟨by decide,
    by
      have h := (optimize_acqf_manifold_nan_guard QTensor.shape
        ⟨[2, 1, 2], [some 1, some 0, some 0, some 1]⟩).2.1 (by decide)
      rw [h]
      rfl⟩,
   ⟨by decide,
    (optimize_acqf_manifold_nan_guard QTensor.shape
        ⟨[2, 1, 2], [some 1, none, some 0, some 1]⟩).2.2 (by decide) QTensor.shape⟩⟩

/-! ### The name resolvers of bo.py lines 42-59 (claim C5, with
`ExperimentUtils.create_model` below). -/

/-- The closed set of acquisition-function classes. -/
inductive AcqfClass where
  | logExpectedImprovement
  | expectedImprovement
  deriving DecidableEq, Repr

/-- `acqf_class_from_name` (bo.py lines 42-47). -/
def acqf_class_from_name (name : String) : Except String AcqfClass :=
  if name = "log_expected_improvement" then Except.ok AcqfClass.logExpectedImprovement
  else if name = "expected_improvement" then Except.ok AcqfClass.expectedImprovement
  else Except.error ("Unknown acquisition function " ++ name)

/-- The closed set of manifold classes. -/
inductive ManifoldClass where
  | sphere
  deriving DecidableEq, Repr

/-- `manifold_class_from_name` (bo.py lines 50-53). -/
def manifold_class_from_name (name : String) : Except String ManifoldClass :=
  if name = "sphere" then Except.ok ManifoldClass.sphere
  else Except.error ("Unknown manifold " ++ name)

/-- The closed set of optimizer classes. -/
inductive OptimizerClass where
  | steepestDescent
  deriving DecidableEq, Repr

/-- `optimizer_class_from_name` (bo.py lines 56-59). -/
def optimizer_class_from_name (name : String) : Except String OptimizerClass :=
  if name = "steepest_descent" then Except.ok OptimizerClass.steepestDescent
  else Except.error ("Unknown optimizer " ++ name)

/-! ### `BotorchGP.forward` shape handling (claim C9)

botorch.py lines 14-18:
```
def forward(self, X, sample_hidden='naive', resample_weights=True):
    if X.shape[-2] == 1:
        X = X.squeeze(-2)
    return self.base_model(X, ...)
```
`X.shape[-2]` raises `IndexError` for a tensor of fewer than 2 dimensions.
-/

/-- `BotorchGP.forward`, with the base model abstracted as `base`. -/
def botorchForward {α : Type} (base : QTensor → α) (X : QTensor) : Except String α :=
  if 2 ≤ X.shape.length then
    if X.shape.getD (X.shape.length - 2) 0 = 1 then
      Except.ok (base ⟨X.shape.eraseIdx (X.shape.length - 2), X.data⟩)
    else
      Except.ok (base X)
  else Except.error "IndexError: tuple index out of range"

theorem prod_eraseIdx_of_getD_one (l : List Nat) :
    ∀ i : Nat, l.getD i 0 = 1 → (l.eraseIdx i).prod = l.prod := by
  induction l with
  | nil =>
    intro i h
    simp [List.getD] at h
  | cons a t ih =>
    intro i h
    cases i with
    | zero =>
      simp only [List.getD_cons_zero] at h
      simp [List.eraseIdx, h]
    | succ i =>
      simp only [List.getD_cons_succ] at h
      simp only [List.eraseIdx, List.prod_cons, ih i h]

/-- C9: when `X` has at least two dimensions and the extent of dimension `-2`
is 1, `forward` hands the base model a tensor with that singleton dimension
removed — one dimension shorter, same data, same total element count, shape
equal to the original with the second-to-last entry dropped — and when the
extent of dimension `-2` differs from 1, the base model receives `X`
unchanged. -/
theorem botorch_forward_squeeze {α : Type} (base : QTensor → α) (X : QTensor)
    (h2 : 2 ≤ X.shape.length) :
    (X.shape.getD (X.shape.length - 2) 0 = 1 →
      ∃ X', botorchForward base X = Except.ok (base X')
        ∧ X'.shape = X.shape.take (X.shape.length - 2) ++ X.shape.drop (X.shape.length - 1)
        ∧ X'.shape.length + 1 = X.shape.length
        ∧ X'.shape.prod = X.shape.prod
        ∧ X'.data = X.data)
    ∧ (X.shape.getD (X.shape.length - 2) 0 ≠ 1 →
        botorchForward base X = Except.ok (base X)) := by
  constructor
  · intro h1
    refine ⟨⟨X.shape.eraseIdx (X.shape.length - 2), X.data⟩, ?_, ?_, ?_, ?_, rfl⟩
    · unfold botorchForward
      rw [if_pos h2, if_pos h1]
    · have := List.eraseIdx_eq_take_drop_succ X.shape (X.shape.length - 2)
      rw [this]
      have hidx : X.shape.length - 2 + 1 = X.shape.length - 1 := by omega
      rw [hidx]
    · have hlt : X.shape.length - 2 < X.shape.length := by omega
      simp only [List.length_eraseIdx, hlt, if_pos]
      omega
    · exact prod_eraseIdx_of_getD_one X.shape _ h1
  · intro h1
    unfold botorchForward
    rw [if_pos h2, if_neg h1]

/-- C9 witness: a 3×1×2 tensor is squeezed to 3×2 before the base model sees
it; a 3×2×2 tensor is passed through unchanged. -/
theorem botorch_forward_squeeze_witness :
    (2 ≤ ([3, 1, 2] : List Nat).length
      ∧ ([3, 1, 2] : List Nat).getD 1 0 = 1
      ∧ botorchForward QTensor.shape ⟨[3, 1, 2], []⟩ = Except.ok [3, 2])
    ∧ (2 ≤ ([3, 2, 2] : List Nat).length
      ∧ botorchForward QTensor.shape ⟨[3, 2, 2], []⟩ = Except.ok [3, 2, 2]) := by
  refine ⟨⟨by decide, by decide, ?_⟩, ⟨by decide, ?_⟩⟩
  · rcases (botorch_forward_squeeze QTensor.shape ⟨[3, 1, 2], []⟩ (by decide)).1 (by decide)
      with ⟨X', hX', hshape, _, _, _⟩
    rw [hX']
    have : X'.shape = [3, 2] := by
      rw [hshape]
      rfl
    rw [this]
  · exact (botorch_forward_squeeze QTensor.shape ⟨[3, 2, 2], []⟩ (by decide)).2 (by decide)

end Bo

namespace ExperimentUtils

/-- `ModelArguments` (mdgp/experiment_utils/model.py lines 13-34), with every
field and its default.  Python ints are modelled as `Int` and floats as `ℚ`. -/
structure ModelArguments where
  space_name : String := "hypersphere"
  space_dim : Int := 2
  model_name : String := "geometric_manifold"
  num_hidden : Int := 1
  num_inducing : Int := 60
  num_eigenfunctions : Int := 20
  learn_inducing_locations : Bool := false
  optimize_nu : Bool := true
  nu : ℚ := 5 / 2
  tangent_to_manifold : String := "exp"
  project_to_tangent : String := "intrinsic"
  parametrised_frame : Bool := false
  rotated_frame : Bool := false
  outputscale_mean : ℚ := 1
  deriving DecidableEq, Repr

/-- `geometric_kernels.spaces.Hypersphere`, identified by its intrinsic
dimension. -/
structure Hypersphere where
  dim : Int
  deriving DecidableEq, Repr

/-- `gpytorch.priors.GammaPrior`, identified by its constructor arguments. -/
structure GammaPrior where
  concentration : ℚ
  rate : ℚ
  deriving DecidableEq, Repr

/-- `get_outputscale_prior` (model.py lines 43-44):
`GammaPrior(concentration=1.0, rate=1 / outputscale_mean)`. -/
def get_outputscale_prior (outputscale_mean : ℚ) : GammaPrior :=
  ⟨1, 1 / outputscale_mean⟩

/-- The model returned by `create_model`, identified by its class and the
constructor arguments the source passes, in source order.  `P` is the type
of inducing-point sets. -/
inductive GPModel (P : Type) where
  | geometricManifoldDeepGP (space : Hypersphere) (inducing_points : P)
      (outputscale_prior : GammaPrior) (num_hidden : Int) (num_eigenfunctions : Int)
      (learn_inducing_locations : Bool) (optimize_nu : Bool) (nu : ℚ)
      (project_to_tangent : String) (tangent_to_manifold : String)
  | euclideanManifoldDeepGP (space : Hypersphere) (inducing_points : P)
      (outputscale_prior : GammaPrior) (num_hidden : Int)
      (learn_inducing_locations : Bool) (nu : ℚ)
      (project_to_tangent : String) (tangent_to_manifold : String)
  | euclideanDeepGP (inducing_points : P) (outputscale_prior : GammaPrior)
      (num_hidden : Int) (nu : ℚ) (learn_inducing_locations : Bool)
  deriving DecidableEq

/-- The space a constructed model lives on, when its class takes one. -/
def GPModel.space? {P : Type} : GPModel P → Option Hypersphere
  | GPModel.geometricManifoldDeepGP space _ _ _ _ _ _ _ _ _ => some space
  | GPModel.euclideanManifoldDeepGP space _ _ _ _ _ _ _ => some space
  | GPModel.euclideanDeepGP _ _ _ _ _ => none

/-- The inducing points a constructed model was given. -/
def GPModel.inducingPoints {P : Type} : GPModel P → P
  | GPModel.geometricManifoldDeepGP _ ip _ _ _ _ _ _ _ _ => ip
  | GPModel.euclideanManifoldDeepGP _ ip _ _ _ _ _ _ => ip
  | GPModel.euclideanDeepGP ip _ _ _ _ => ip

/-- `create_model` (model.py lines 47-84).  `sphere_uniform_grid` (from
mdgp.utils) is abstracted as a function of the requested number of points;
the source fixes `space = Hypersphere(dim=2)` and
`inducing_points = sphere_uniform_grid(n=model_args.num_inducing)` before
dispatching on `model_args.model_name`. -/
def create_model {P : Type} (sphere_uniform_grid : Int → P)
    (model_args : ModelArguments) : Except String (GPModel P) :=
  let space := Hypersphere.mk 2
  let inducing_points := sphere_uniform_grid model_args.num_inducing
  let model_name := model_args.model_name
  let outputscale_prior := get_outputscale_prior model_args.outputscale_mean
  if model_name = "geometric_manifold" then
    Except.ok (GPModel.geometricManifoldDeepGP space inducing_points outputscale_prior
      model_args.num_hidden model_args.num_eigenfunctions
      model_args.learn_inducing_locations model_args.optimize_nu model_args.nu
      model_args.project_to_tangent model_args.tangent_to_manifold)
  else if model_name = "euclidean_manifold" then
    Except.ok (GPModel.euclideanManifoldDeepGP space inducing_points outputscale_prior
      model_args.num_hidden model_args.learn_inducing_locations model_args.nu
      model_args.project_to_tangent model_args.tangent_to_manifold)
  else if model_name = "euclidean" then
    Except.ok (GPModel.euclideanDeepGP inducing_points outputscale_prior
      model_args.num_hidden model_args.nu model_args.learn_inducing_locations)
  else
    Except.error ("Unknown model name: " ++ model_name ++
      ". Must be one of ['geometric_manifold', 'euclidean_manifold', 'euclidean']")

/-- C5: each family resolver accepts exactly its closed set of names and
errors on every other name: `acqf_class_from_name` maps
`log_expected_improvement` / `expected_improvement` to the two acquisition
classes, `manifold_class_from_name` accepts exactly `sphere`,
`optimizer_class_from_name` accepts exactly `steepest_descent`, and
`create_model` succeeds exactly on
`{geometric_manifold, euclidean_manifold, euclidean}`. -/
theorem name_resolvers_closed (name : String) :
    (Bo.acqf_class_from_name name = Except.ok Bo.AcqfClass.logExpectedImprovement
      ↔ name = "log_expected_improvement")
    ∧ (Bo.acqf_class_from_name name = Except.ok Bo.AcqfClass.expectedImprovement
      ↔ name = "expected_improvement")
    ∧ ((∃ e, Bo.acqf_class_from_name name = Except.error e)
      ↔ (name ≠ "log_expected_improvement" ∧ name ≠ "expected_improvement"))
    ∧ ((∃ c, Bo.manifold_class_from_name name = Except.ok c) ↔ name = "sphere")
    ∧ ((∃ e, Bo.manifold_class_from_name name = Except.error e) ↔ name ≠ "sphere")
    ∧ ((∃ c, Bo.optimizer_class_from_name name = Except.ok c) ↔ name = "steepest_descent")
    ∧ ((∃ e, Bo.optimizer_class_from_name name = Except.error e) ↔ name ≠ "steepest_descent")
    ∧ (∀ (P : Type) (grid : Int → P) (args : ModelArguments), args.model_name = name →
        (((∃ m, create_model grid args = Except.ok m)
          ↔ (name = "geometric_manifold" ∨ name = "euclidean_manifold" ∨ name = "euclidean"))
        ∧ ((∃ e, create_model grid args = Except.error e)
          ↔ ¬ (name = "geometric_manifold" ∨ name = "euclidean_manifold" ∨ name = "euclidean")))) := by
  refine ⟨?_, ?_, ?_, ?_, ?_, ?_, ?_, ?_⟩
  · unfold Bo.acqf_class_from_name
    by_cases h1 : name = "log_expected_improvement"
    · simp [h1]
    · by_cases h2 : name = "expected_improvement" <;> simp [h1, h2]
  · unfold Bo.acqf_class_from_name
    by_cases h1 : name = "log_expected_improvement"
    · simp [h1]
    · by_cases h2 : name = "expected_improvement" <;> simp [h1, h2]
  · unfold Bo.acqf_class_from_name
    by_cases h1 : name = "log_expected_improvement"
    · simp [h1]
    · by_cases h2 : name = "expected_improvement" <;> simp [h1, h2]
  · unfold Bo.manifold_class_from_name
    by_cases h1 : name = "sphere"
    · simp [h1]
      exact ⟨Bo.ManifoldClass.sphere, trivial⟩
    · simp [h1]
  · unfold Bo.manifold_class_from_name
    by_cases h1 : name = "sphere" <;> simp [h1]
  · unfold Bo.optimizer_class_from_name
    by_cases h1 : name = "steepest_descent"
    · simp [h1]
      exact ⟨Bo.OptimizerClass.steepestDescent, trivial⟩
    · simp [h1]
  · unfold Bo.optimizer_class_from_name
    by_cases h1 : name = "steepest_descent" <;> simp [h1]
  · intro P grid args hname
    unfold create_model
    rw [hname]
    by_cases h1 : name = "geometric_manifold"
    · simp [h1]
    · by_cases h2 : name = "euclidean_manifold"
      · simp [h1, h2]
      · by_cases h3 : name = "euclidean" <;> simp [h1, h2, h3]

/-- C5 witness: the resolver theorem at the name `expected_improvement`,
whose `create_model` clause is instantiated with an argument record carrying
that (invalid) model name. -/
theorem name_resolvers_closed_witness :
    ((Bo.acqf_class_from_name "expected_improvement"
        = Except.ok Bo.AcqfClass.expectedImprovement
      ↔ "expected_improvement" = "expected_improvement")
    ∧ ({ model_name := "expected_improvement" : ModelArguments }.model_name
        = "expected_improvement")
    ∧ ((∃ m, create_model (fun n => n) { model_name := "expected_improvement" }
          = Except.ok m)
      ↔ ("expected_improvement" = "geometric_manifold"
          ∨ "expected_improvement" = "euclidean_manifold"
          ∨ "expected_improvement" = "euclidean"))) :=
  ⟨(name_resolvers_closed "expected_improvement").2.1,
   rfl,
   ((name_resolvers_closed "expected_improvement").2.2.2.2.2.2.2
     Int (fun n => n) { model_name := "expected_improvement" } rfl).1⟩

/-- C8: `create_model` ignores the `space_name` and `space_dim` fields of its
arguments entirely — two argument records differing only in those fields
yield the same model — and every model it constructs receives
`sphere_uniform_grid(num_inducing)` as inducing points, while any space it
passes to a model constructor is `Hypersphere(dim=2)`. -/
theorem create_model_ignores_space_args {P : Type} (grid : Int → P)
    (args : ModelArguments) (sn : String) (sd : Int) :
    create_model grid { args with space_name := sn, space_dim := sd }
      = create_model grid args
    ∧ (∀ m, create_model grid args = Except.ok m →
        m.inducingPoints = grid args.num_inducing
        ∧ ∀ s, m.space? = some s → s = Hypersphere.mk 2) := by
  constructor
  · rfl
  · intro m hm
    unfold create_model at hm
    by_cases h1 : args.model_name = "geometric_manifold"
    · rw [if_pos h1] at hm
      cases hm
      exact ⟨rfl, fun s hs => by cases hs; rfl⟩
    · rw [if_neg h1] at hm
      by_cases h2 : args.model_name = "euclidean_manifold"
      · rw [if_pos h2] at hm
        cases hm
        exact ⟨rfl, fun s hs => by cases hs; rfl⟩
      · rw [if_neg h2] at hm
        by_cases h3 : args.model_name = "euclidean"
        · rw [if_pos h3] at hm
          cases hm
          exact ⟨rfl, fun s hs => by cases hs⟩
        · rw [if_neg h3] at hm
          cases hm

/-- C8 witness: two argument records differing only in `space_name` and
`space_dim` (one of them nonsensical) produce the same model, on inducing
points `grid 60`. -/
theorem create_model_ignores_space_args_witness :
    (create_model (fun n => n)
        { ({} : ModelArguments) with space_name := "torus", space_dim := 9 }
      = create_model (fun n => n) ({} : ModelArguments))
    ∧ (∀ m, create_model (fun n => n) ({} : ModelArguments) = Except.ok m →
        m.inducingPoints = (60 : Int)
        ∧ ∀ s, m.space? = some s → s = Hypersphere.mk 2) :=
  create_model_ignores_space_args (fun n => n) ({} : ModelArguments) "torus" 9

end ExperimentUtils

namespace ExperimentUtils

/-- `ExperimentStatus` (reproducibility.py lines 81-85). -/
inductive ExperimentStatus where
  | ready
  | running
  | failed
  | completed
  deriving DecidableEq, Repr

/-- The enum's string value (`ExperimentStatus.READY.value = 'ready'`, ...). -/
def ExperimentStatus.value : ExperimentStatus → String
  | ExperimentStatus.ready => "ready"
  | ExperimentStatus.running => "running"
  | ExperimentStatus.failed => "failed"
  | ExperimentStatus.completed => "completed"

/-- `ExperimentStatus(value)`: the enum member with the given value, or
`none` (a `ValueError` in Python) for an unknown value. -/
def ExperimentStatus.ofValue (v : String) : Option ExperimentStatus :=
  if v = "ready" then some ExperimentStatus.ready
  else if v = "running" then some ExperimentStatus.running
  else if v = "failed" then some ExperimentStatus.failed
  else if v = "completed" then some ExperimentStatus.completed
  else none

/-- `ExperimentConfigReader.__enter__` (reproducibility.py lines 221-228),
restricted to the status it records: a READY or FAILED run, or a COMPLETED
run when `overwrite` is set, is moved to RUNNING; any other status is left
unchanged. -/
def readerEnter (overwrite : Bool) (status : ExperimentStatus) : ExperimentStatus :=
  if status = ExperimentStatus.ready ∨ status = ExperimentStatus.failed
      ∨ (status = ExperimentStatus.completed ∧ overwrite = true) then
    ExperimentStatus.running
  else status

/-- The outcome of `ExperimentConfigReader.__exit__` (reproducibility.py
lines 230-233): the recorded status, and whether the exception (if any)
propagates out of the `with` block.  `__exit__` returns `None`, so an
exception is never suppressed. -/
structure ExitResult where
  status : ExperimentStatus
  exceptionPropagated : Bool
  deriving DecidableEq, Repr

/-- `ExperimentConfigReader.__exit__`: a RUNNING run is recorded as FAILED
when an exception was raised in the block (`exc_type is not None`) and as
COMPLETED otherwise; any other status is left unchanged. -/
def readerExit (status : ExperimentStatus) (excRaised : Bool) : ExitResult :=
  ⟨if status = ExperimentStatus.running then
      (if excRaised then ExperimentStatus.failed else ExperimentStatus.completed)
    else status,
   excRaised⟩

/-- C6: for a run entered with status READY, FAILED, or COMPLETED with
`overwrite` set, entry records RUNNING; on exit the recorded status is
FAILED exactly when an exception propagated out of the block (and COMPLETED
otherwise), and the exception always propagates (never silently swallowed).
A FAILED run is moved to RUNNING by any later entry (eligible to re-run),
while a COMPLETED run is left untouched unless `overwrite` is set. -/
theorem reader_status_protocol (overwrite excRaised : Bool) (status : ExperimentStatus)
    (h : status = ExperimentStatus.ready ∨ status = ExperimentStatus.failed
      ∨ (status = ExperimentStatus.completed ∧ overwrite = true)) :
    readerEnter overwrite status = ExperimentStatus.running
    ∧ ((readerExit (readerEnter overwrite status) excRaised).status
        = ExperimentStatus.failed ↔ excRaised = true)
    ∧ (excRaised = false →
        (readerExit (readerEnter overwrite status) excRaised).status
          = ExperimentStatus.completed)
    ∧ (readerExit (readerEnter overwrite status) excRaised).exceptionPropagated = excRaised
    ∧ (∀ ow : Bool, readerEnter ow ExperimentStatus.failed = ExperimentStatus.running)
    ∧ readerEnter false ExperimentStatus.completed = ExperimentStatus.completed
    ∧ readerEnter true ExperimentStatus.completed = ExperimentStatus.running := by
  have henter : readerEnter overwrite status = ExperimentStatus.running := by
    unfold readerEnter
    rw [if_pos h]
  refine ⟨henter, ?_, ?_, ?_, ?_, ?_, ?_⟩
  · rw [henter]
    cases excRaised <;> simp [readerExit]
  · intro hexc
    rw [henter, hexc]
    rfl
  · rw [henter]
    rfl
  · intro ow
    cases ow <;> rfl
  · rfl
  · rfl

/-- C6 witness: the protocol theorem at a FAILED run re-entered without
overwrite, whose body raises an exception. -/
theorem reader_status_protocol_witness :
    ((ExperimentStatus.failed = ExperimentStatus.ready
        ∨ ExperimentStatus.failed = ExperimentStatus.failed
        ∨ (ExperimentStatus.failed = ExperimentStatus.completed ∧ false = true)))
    ∧ (readerEnter false ExperimentStatus.failed = ExperimentStatus.running
      ∧ ((readerExit (readerEnter false ExperimentStatus.failed) true).status
          = ExperimentStatus.failed ↔ true = true)
      ∧ (true = false →
          (readerExit (readerEnter false ExperimentStatus.failed) true).status
            = ExperimentStatus.completed)
      ∧ (readerExit (readerEnter false ExperimentStatus.failed) true).exceptionPropagated = true
      ∧ (∀ ow : Bool, readerEnter ow ExperimentStatus.failed = ExperimentStatus.running)
      ∧ readerEnter false ExperimentStatus.completed = ExperimentStatus.completed
      ∧ readerEnter true ExperimentStatus.completed = ExperimentStatus.running) :=
  ⟨Or.inr (Or.inl rfl),
   reader_status_protocol false true ExperimentStatus.failed (Or.inr (Or.inl rfl))⟩

end ExperimentUtils

namespace ExperimentUtils

/-- A JSON-representable scalar value, as stored in a flat arguments
dataclass: a string, an int, a bool, or a float (modelled as `ℚ`).
`json.dump`/`json.load` round-trip these exactly. -/
inductive Scalar where
  | s (v : String)
  | i (v : Int)
  | b (v : Bool)
  | q (v : ℚ)
  deriving DecidableEq, Repr

/-- `dataclasses.asdict` on `ModelArguments`: the field dictionary, in field
order. -/
def ModelArguments.asdict (a : ModelArguments) : List (String × Scalar) :=
  [("space_name", Scalar.s a.space_name),
   ("space_dim", Scalar.i a.space_dim),
   ("model_name", Scalar.s a.model_name),
   ("num_hidden", Scalar.i a.num_hidden),
   ("num_inducing", Scalar.i a.num_inducing),
   ("num_eigenfunctions", Scalar.i a.num_eigenfunctions),
   ("learn_inducing_locations", Scalar.b a.learn_inducing_locations),
   ("optimize_nu", Scalar.b a.optimize_nu),
   ("nu", Scalar.q a.nu),
   ("tangent_to_manifold", Scalar.s a.tangent_to_manifold),
   ("project_to_tangent", Scalar.s a.project_to_tangent),
   ("parametrised_frame", Scalar.b a.parametrised_frame),
   ("rotated_frame", Scalar.b a.rotated_frame),
   ("outputscale_mean", Scalar.q a.outputscale_mean)]

/-- Read a string field out of a parsed dictionary. -/
def getS (d : List (String × Scalar)) (k : String) : Option String :=
  match d.lookup k with
  | some (Scalar.s v) => some v
  | _ => none

/-- Read an int field out of a parsed dictionary. -/
def getI (d : List (String × Scalar)) (k : String) : Option Int :=
  match d.lookup k with
  | some (Scalar.i v) => some v
  | _ => none

/-- Read a bool field out of a parsed dictionary. -/
def getB (d : List (String × Scalar)) (k : String) : Option Bool :=
  match d.lookup k with
  | some (Scalar.b v) => some v
  | _ => none

/-- Read a float field out of a parsed dictionary. -/
def getQ (d : List (String × Scalar)) (k : String) : Option ℚ :=
  match d.lookup k with
  | some (Scalar.q v) => some v
  | _ => none

/-- `ModelArguments(**d)`: rebuild the dataclass from its field dictionary. -/
def ModelArguments.ofDict (d : List (String × Scalar)) : Option ModelArguments := do
  let space_name ← getS d "space_name"
  let space_dim ← getI d "space_dim"
  let model_name ← getS d "model_name"
  let num_hidden ← getI d "num_hidden"
  let num_inducing ← getI d "num_inducing"
  let num_eigenfunctions ← getI d "num_eigenfunctions"
  let learn_inducing_locations ← getB d "learn_inducing_locations"
  let optimize_nu ← getB d "optimize_nu"
  let nu ← getQ d "nu"
  let tangent_to_manifold ← getS d "tangent_to_manifold"
  let project_to_tangent ← getS d "project_to_tangent"
  let parametrised_frame ← getB d "parametrised_frame"
  let rotated_frame ← getB d "rotated_frame"
  let outputscale_mean ← getQ d "outputscale_mean"
  pure ⟨space_name, space_dim, model_name, num_hidden, num_inducing,
    num_eigenfunctions, learn_inducing_locations, optimize_nu, nu,
    tangent_to_manifold, project_to_tangent, parametrised_frame, rotated_frame,
    outputscale_mean⟩

/-- Modelled from the spec: `DataArguments` is imported by reproducibility.py
from a module that is not under src/; like the argument bundles the spec
describes (section 6, Configuration), it is a flat dataclass of scalar
configuration fields, modelled here by its field dictionary, on which
`asdict` and reconstruction via `DataArguments(**d)` are mutually inverse. -/
structure DataArguments where
  fields : List (String × Scalar)
  deriving DecidableEq, Repr

/-- Modelled from the spec: `TrainingArguments` is imported by
reproducibility.py from a module that is not under src/; it is modelled like
`DataArguments`. -/
structure TrainingArguments where
  fields : List (String × Scalar)
  deriving DecidableEq, Repr

/-- `ExperimentConfig` (reproducibility.py lines 88-98). -/
structure ExperimentConfig where
  model_arguments : ModelArguments
  data_arguments : DataArguments
  training_arguments : TrainingArguments
  run : Int
  status : ExperimentStatus
  file_name : String
  deriving DecidableEq, Repr

/-- The JSON document written by `ExperimentConfig.to_json`: the five keys
produced by `to_dict` (reproducibility.py lines 112-119).  `file_name` is
deliberately not stored. -/
structure ConfigJson where
  model_arguments : List (String × Scalar)
  data_arguments : List (String × Scalar)
  training_arguments : List (String × Scalar)
  run : Int
  status : String
  deriving DecidableEq, Repr

/-- `ExperimentConfig.to_dict` (reproducibility.py lines 112-119). -/
def ExperimentConfig.to_dict (c : ExperimentConfig) : ConfigJson :=
  ⟨c.model_arguments.asdict, c.data_arguments.fields, c.training_arguments.fields,
   c.run, c.status.value⟩

/-- `ExperimentConfig.from_dict` (reproducibility.py lines 126-132), with the
`file_name` entry that `from_json` adds to the dictionary passed separately:
parse the status value, rebuild the three argument dataclasses, and call the
constructor.  A `ValueError` (unknown status) is modelled as `none`. -/
def ExperimentConfig.from_dict (d : ConfigJson) (file_name : String) :
    Option ExperimentConfig := do
  let status ← ExperimentStatus.ofValue d.status
  let model_arguments ← ModelArguments.ofDict d.model_arguments
  pure ⟨model_arguments, ⟨d.data_arguments⟩, ⟨d.training_arguments⟩, d.run,
    status, file_name⟩

/-- Prepend a character to the first chunk of a chunk list. -/
def consHead (c : Char) : List (List Char) → List (List Char)
  | [] => [[c]]
  | h :: r => (c :: h) :: r

/-- Split a character list at every `/`, like `str.split('/')`: used to model
`os.path.basename`. -/
def splitSlash : List Char → List (List Char)
  | [] => [[]]
  | c :: t => if c = '/' then [] :: splitSlash t else consHead c (splitSlash t)

/-- `os.path.basename`: the last `/`-separated component of a path. -/
def basename (p : List Char) : List Char :=
  ((splitSlash p).getLast?).getD []

/-- `os.path.join(dir_path, name)` for a relative `name`. -/
def pathJoin (dir : List Char) (name : String) : List Char :=
  dir ++ '/' :: name.data

/-- The file system as a stack of (path, parsed JSON document) writes; a
later write to the same path shadows an earlier one. -/
def FileSystem : Type := List (List Char × ConfigJson)

/-- `ExperimentConfig.to_json` (reproducibility.py lines 121-124): write
`to_dict` to `os.path.join(dir_path, self.file_name)`. -/
def ExperimentConfig.to_json (c : ExperimentConfig) (dir : List Char)
    (fs : FileSystem) : FileSystem :=
  (pathJoin dir c.file_name, c.to_dict) :: fs

/-- `ExperimentConfig.from_json` (reproducibility.py lines 134-139): load the
JSON document at `file_path`, set `file_name` to
`os.path.basename(file_path)`, and rebuild via `from_dict`. -/
def ExperimentConfig.from_json (fs : FileSystem) (file_path : List Char) :
    Option ExperimentConfig := do
  let d ← List.lookup file_path fs
  ExperimentConfig.from_dict d (String.mk (basename file_path))

end ExperimentUtils

namespace ExperimentUtils

theorem consHead_ne_nil (c : Char) (l : List (List Char)) : consHead c l ≠ [] := by
  cases l <;> simp [consHead]

theorem splitSlash_cons (c : Char) (t : List Char) :
    splitSlash (c :: t) =
      if c = '/' then [] :: splitSlash t else consHead c (splitSlash t) := rfl

theorem splitSlash_ne_nil (l : List Char) : splitSlash l ≠ [] := by
  cases l with
  | nil => simp [splitSlash]
  | cons c t =>
    rw [splitSlash_cons]
    by_cases hc : c = '/'
    · simp [hc]
    · rw [if_neg hc]
      exact consHead_ne_nil c (splitSlash t)

theorem splitSlash_no_slash (l : List Char) (h : '/' ∉ l) : splitSlash l = [l] := by
  induction l with
  | nil => rfl
  | cons c t ih =>
    have hc : ¬ (c = '/') := fun hEq => h (by rw [hEq]; exact List.mem_cons_self _ _)
    have ht : '/' ∉ t := fun hm => h (List.mem_cons_of_mem _ hm)
    rw [splitSlash_cons, if_neg hc, ih ht]
    rfl

theorem splitSlash_append_slash (b : List Char) : ∀ a : List Char,
    2 ≤ (splitSlash (a ++ '/' :: b)).length
    ∧ (splitSlash (a ++ '/' :: b)).getLast? = (splitSlash b).getLast? := by
  intro a
  induction a with
  | nil =>
    rw [List.nil_append, splitSlash_cons, if_pos rfl]
    rcases h : splitSlash b with _ | ⟨hd, r⟩
    · exact absurd h (splitSlash_ne_nil b)
    · refine ⟨by simp, ?_⟩
      rw [List.getLast?_cons_cons]
  | cons c a ih =>
    rw [List.cons_append, splitSlash_cons]
    rcases h : splitSlash (a ++ '/' :: b) with _ | ⟨hd, r⟩
    · exact absurd h (splitSlash_ne_nil _)
    · rw [h] at ih
      cases r with
      | nil =>
        exfalso
        have hlen := ih.1
        simp only [List.length_cons, List.length_nil] at hlen
        omega
      | cons r0 rs =>
        have h2 : (hd :: r0 :: rs).getLast? = (r0 :: rs).getLast? :=
          List.getLast?_cons_cons
        by_cases hc : c = '/'
        · rw [if_pos hc]
          refine ⟨by simp, ?_⟩
          rw [List.getLast?_cons_cons]
          exact ih.2
        · rw [if_neg hc]
          show 2 ≤ ((c :: hd) :: r0 :: rs).length ∧
            ((c :: hd) :: r0 :: rs).getLast? = (splitSlash b).getLast?
          refine ⟨by simp, ?_⟩
          rw [List.getLast?_cons_cons, ← h2]
          exact ih.2

theorem basename_pathJoin (dir : List Char) (name : String) (h : '/' ∉ name.data) :
    basename (pathJoin dir name) = name.data := by
  unfold basename pathJoin
  rw [(splitSlash_append_slash name.data dir).2, splitSlash_no_slash name.data h]
  rfl

theorem ofValue_value (st : ExperimentStatus) :
    ExperimentStatus.ofValue st.value = some st := by
  cases st <;> rfl

theorem ModelArguments.ofDict_asdict (a : ModelArguments) :
    ModelArguments.ofDict a.asdict = some a := rfl

theorem from_dict_to_dict (c : ExperimentConfig) (fn : String) :
    ExperimentConfig.from_dict c.to_dict fn = some { c with file_name := fn } := by
  rcases c with ⟨ma, da, ta, run, st, fname⟩
  cases st <;> rfl

theorem lookup_write_self (p : List Char) (v : ConfigJson) (fs : FileSystem) :
    List.lookup p ((p, v) :: fs) = some v := by
  simp [List.lookup]

/-- C10 counterexample: a config whose `file_name` contains a path separator
does not round-trip: `to_dict` omits `file_name`, and `from_json` recovers it
as `os.path.basename(file_path)`, so `"a/b"` comes back as `"b"`. -/
theorem to_json_from_json_counterexample :
    ExperimentConfig.from_json
        (ExperimentConfig.to_json
          ⟨{}, ⟨[]⟩, ⟨[]⟩, 0, ExperimentStatus.ready, "a/b"⟩ ['d'] [])
        (pathJoin ['d'] "a/b")
      = some ⟨{}, ⟨[]⟩, ⟨[]⟩, 0, ExperimentStatus.ready, "b"⟩
    ∧ ("b" : String) ≠ "a/b" := by
  constructor
  · rfl
  · decide

/-- C10 (amended): for every `ExperimentConfig` whose `file_name` contains no
path separator `/` — in particular the default `config.json` — writing it
with `to_json` into a directory and reading that file back with `from_json`
restores the config exactly, every field included. -/
theorem to_json_from_json_roundtrip (c : ExperimentConfig) (dir : List Char)
    (fs : FileSystem) (h : '/' ∉ c.file_name.data) :
    ExperimentConfig.from_json (c.to_json dir fs) (pathJoin dir c.file_name)
      = some c := by
  unfold ExperimentConfig.from_json ExperimentConfig.to_json
  rw [lookup_write_self]
  show ExperimentConfig.from_dict c.to_dict
    (String.mk (basename (pathJoin dir c.file_name))) = some c
  rw [basename_pathJoin dir c.file_name h, from_dict_to_dict]

/-- C10 witness: the round-trip theorem at a concrete config named
`config.json`. -/
theorem to_json_from_json_roundtrip_witness :
    ('/' ∉ ("config.json" : String).data)
    ∧ ExperimentConfig.from_json
        (ExperimentConfig.to_json
          ⟨{}, ⟨[("num", Scalar.i 7)]⟩, ⟨[]⟩, 3, ExperimentStatus.completed,
            "config.json"⟩ ['d'] [])
        (pathJoin ['d'] "config.json")
      = some ⟨{}, ⟨[("num", Scalar.i 7)]⟩, ⟨[]⟩, 3, ExperimentStatus.completed,
          "config.json"⟩ :=
  ⟨by decide,
   to_json_from_json_roundtrip
     ⟨{}, ⟨[("num", Scalar.i 7)]⟩, ⟨[]⟩, 3, ExperimentStatus.completed,
       "config.json"⟩ ['d'] [] (by decide)⟩

end ExperimentUtils
